import Mathlib

/-!
Verification development for the alpha/omega prediction app
(`src/pages/Index.tsx`).  The data model and all operations below are a
shallow embedding of that file: JavaScript numbers used as times and ids
become `ℤ`, the floating-point accuracy percentage becomes `ℚ`, React
state becomes the explicit record `AppState`, and the `useEffect` that
fires `makePrediction` after a history change is folded into the
dispatch step.
-/

/-- The two outcome classes (`type Result = 'alpha' | 'omega'`). -/
inductive Result where
  | alpha
  | omega
deriving DecidableEq, Repr

/-- The opposite outcome symbol (used only to state theorems compactly). -/
def Result.other : Result → Result
  | .alpha => .omega
  | .omega => .alpha

/-- Record `interface HistoryEntry { id; result; timestamp }`.  `id` is the
`Date.now()` value at creation, `timestamp` the creation `Date`, both in
milliseconds, modelled as `ℤ`. -/
structure HistoryEntry where
  id : ℤ
  result : Result
  timestamp : ℤ
deriving DecidableEq, Repr

/-- Record `interface PredictionMethod { name; predict; accuracy; predictions; correct }`. -/
structure PredictionMethod where
  name : String
  predict : List HistoryEntry → Result
  accuracy : ℚ
  predictions : ℕ
  correct : ℕ

/-- Count `hist.filter(h => h.result === 'alpha').length` (line 54). -/
def alphaCount (hist : List HistoryEntry) : ℕ :=
  (hist.filter fun e => e.result == Result.alpha).length

/-- Count `hist.filter(h => h.result === 'omega').length` (line 55). -/
def omegaCount (hist : List HistoryEntry) : ℕ :=
  (hist.filter fun e => e.result == Result.omega).length

/-- Predictor of the method named "Частотный анализ" (Index.tsx lines 53-57):
majority vote over the whole history, alpha only on a strict majority. -/
def freqPredict (hist : List HistoryEntry) : Result :=
  if omegaCount hist < alphaCount hist then .alpha else .omega

/-- Predictor of "Последние 5 значений" (lines 64-68): `hist.slice(-5)`,
predict omega when more than 2 of the last 5 are alpha. -/
def last5Predict (hist : List HistoryEntry) : Result :=
  let last5 := hist.drop (hist.length - 5)
  let alphaCount := (last5.filter fun e => e.result == Result.alpha).length
  if 2 < alphaCount then .omega else .alpha

/-- Predictor of "Паттерн-анализ" (lines 75-81): alpha below 3 entries,
otherwise inspect the last 3. -/
def patternPredict (hist : List HistoryEntry) : Result :=
  if hist.length < 3 then .alpha
  else
    let last3 := (hist.drop (hist.length - 3)).map (fun e => e.result)
    if last3.all (fun r => r == Result.alpha) then .omega
    else if last3.all (fun r => r == Result.omega) then .alpha
    else
      match last3.getLast? with
      | some Result.alpha => .omega
      | _ => .alpha

/-- Number of adjacent transitions `a → b` in the history: the loop at
lines 91-98 walks the index pairs `(i, i+1)`, i.e. `hist.zip hist.tail`. -/
def countTrans (hist : List HistoryEntry) (a b : Result) : ℕ :=
  ((hist.zip hist.tail).filter fun p => p.1.result == a && p.2.result == b).length

/-- Predictor of "Вероятностная модель" (lines 88-105): first-order
transition counts; `transitions.alphaOmega > transitions.alphaAlpha ?
'omega' : 'alpha'` and symmetrically for a last omega. -/
def transPredict (hist : List HistoryEntry) : Result :=
  if hist.length < 2 then .alpha
  else
    match hist.getLast? with
    | none => .alpha
    | some last =>
      if last.result == Result.alpha then
        if countTrans hist .alpha .alpha < countTrans hist .alpha .omega then .omega else .alpha
      else
        if countTrans hist .omega .omega < countTrans hist .omega .alpha then .alpha else .omega

/-- First declared method (line 51). -/
def method1 : PredictionMethod :=
  { name := "Частотный анализ", predict := freqPredict,
    accuracy := 0, predictions := 0, correct := 0 }

/-- Second declared method (line 62). -/
def method2 : PredictionMethod :=
  { name := "Последние 5 значений", predict := last5Predict,
    accuracy := 0, predictions := 0, correct := 0 }

/-- Third declared method (line 73). -/
def method3 : PredictionMethod :=
  { name := "Паттерн-анализ", predict := patternPredict,
    accuracy := 0, predictions := 0, correct := 0 }

/-- Fourth declared method (line 86). -/
def method4 : PredictionMethod :=
  { name := "Вероятностная модель", predict := transPredict,
    accuracy := 0, predictions := 0, correct := 0 }

/-- The ensemble in its fixed declaration order (lines 50-110). -/
def initialMethods : List PredictionMethod := [method1, method2, method3, method4]

/-- Record `interface CaptureArea { x; y; width; height }`. -/
structure CaptureArea where
  x : ℚ
  y : ℚ
  width : ℚ
  height : ℚ
deriving DecidableEq, Repr

/-- The component's React state (lines 37-48), one field per `useState` /
`useRef` hook that the core logic touches.  `lastDetected`'s display
string is modelled by the detection time, `streamRef` by an abstract
handle number. -/
structure AppState where
  history : List HistoryEntry
  currentPrediction : Option Result
  bestMethod : String
  methods : List PredictionMethod
  isCapturing : Bool
  isMonitoring : Bool
  showSettings : Bool
  captureArea : Option CaptureArea
  sensitivity : ℕ
  lastDetected : Option (Result × ℤ)
  stream : Option ℕ

/-- The initial state of every hook (lines 37-48, 50). -/
def initState : AppState :=
  { history := [], currentPrediction := none, bestMethod := "",
    methods := initialMethods, isCapturing := false, isMonitoring := false,
    showSettings := false, captureArea := none, sensitivity := 30,
    lastDetected := none, stream := none }

/-- One step of the `reduce` at lines 136-138:
`current.accuracy > best.accuracy ? current : best`. -/
def pickBetter (best cur : PredictionMethod) : PredictionMethod :=
  if best.accuracy < cur.accuracy then cur else best

/-- Reduction `updatedMethods.reduce(...)` (lines 136-138): JavaScript `reduce`
without an initial value starts from the first element; it is undefined
on an empty array, hence the `Option`. -/
def selectBest : List PredictionMethod → Option PredictionMethod
  | [] => none
  | m :: ms => some (ms.foldl pickBetter m)

/-- The best-method name the app exposes to every reader (the badge at
line 400, the per-method comparison at line 502, the export prop at line
555) is the cached `bestMethod` state (line 39).  It is written only
inside `makePrediction` (line 141), and the effect at lines 112-116 is
guarded by `history.length > 0`, so it is never recomputed while the
history is empty. -/
def getBestMethodName (s : AppState) : String :=
  s.bestMethod

/-- Function `makePrediction` (lines 130-143): every method predicts on the current
history, the accuracy-best method supplies `currentPrediction` and
`bestMethod`.  The `lastPrediction` annotation the code attaches to each
method is not part of the `PredictionMethod` interface and is read only
inside this function, so the stored counters are unchanged. -/
def makePrediction (s : AppState) : AppState :=
  match selectBest s.methods with
  | none => s
  | some b =>
      { s with currentPrediction := some (b.predict s.history), bestMethod := b.name }

/-- The per-method update inside `addResult` (lines 276-285): score the
prediction made from the pre-append history against the new outcome. -/
def scoreMethod (hist : List HistoryEntry) (result : Result) (m : PredictionMethod) : PredictionMethod :=
  let inc : ℕ := if m.predict hist = result then 1 else 0
  { m with
    predictions := m.predictions + 1
    correct := m.correct + inc
    accuracy := (((m.correct + inc : ℕ) : ℚ) / ((m.predictions + 1 : ℕ) : ℚ)) * 100 }

/-- The accepted branch of `addResult` (lines 269-294): build the new
entry, score all methods when a current prediction exists (it is `null`
exactly until the first outcome arrives), append to history. -/
def appendResult (now : ℤ) (result : Result) (s : AppState) : AppState :=
  let newEntry : HistoryEntry := { id := now, result := result, timestamp := now }
  let methods' :=
    match s.currentPrediction with
    | some _ => s.methods.map (scoreMethod s.history result)
    | none => s.methods
  { s with methods := methods', history := s.history ++ [newEntry] }

/-- Function `addResult` (lines 263-295) together with the `useEffect` at lines
112-116: a dispatch that survives the 5000 ms debounce guard appends the
entry and then triggers `makePrediction` on the new state (the new
history is nonempty, so the effect always fires after an accepted
append; a rejected dispatch changes no state, so the effect does not). -/
def dispatchOutcome (now : ℤ) (result : Result) (s : AppState) : AppState :=
  match s.history.getLast? with
  | some lastResult =>
      if now - lastResult.timestamp < 5000 then s
      else makePrediction (appendResult now result s)
  | none => makePrediction (appendResult now result s)

/-- The per-method reset at line 301: `{ ...m, accuracy: 0, predictions: 0, correct: 0 }`. -/
def resetCounters (m : PredictionMethod) : PredictionMethod :=
  { m with accuracy := 0, predictions := 0, correct := 0 }

/-- Function `clearHistory` (lines 297-302). -/
def clearHistory (s : AppState) : AppState :=
  { s with
    history := []
    currentPrediction := none
    bestMethod := ""
    methods := s.methods.map resetCounters }

/-- One RGBA pixel of `ImageData` (the alpha byte is never read). -/
structure Pixel where
  r : ℕ
  g : ℕ
  b : ℕ
deriving DecidableEq, Repr

/-- The two colour families tested (lines 236-244). -/
inductive ColorTarget where
  | blue
  | purple
deriving DecidableEq, Repr

/-- The per-pixel colour predicates of `analyzeColorDominance`
(lines 236-244); channel differences are JavaScript number arithmetic,
hence computed in `ℤ`. -/
def colorMatch (c : ColorTarget) (p : Pixel) : Bool :=
  match c with
  | .blue =>
      decide (180 < p.b) && decide (200 < p.g) && decide (p.r < 150) &&
      decide ((50 : ℤ) < (p.g : ℤ) - (p.r : ℤ)) && decide ((30 : ℤ) < (p.b : ℤ) - (p.r : ℤ))
  | .purple =>
      decide (120 < p.r) && decide (120 < p.b) && decide (p.g < 100) &&
      decide (|(p.r : ℤ) - (p.b : ℤ)| < 60) && decide (p.g < p.r) && decide (p.g < p.b)

/-- Function `analyzeColorDominance` (lines 227-248): matching pixels divided by
the pixel count of the half (`data.length / 4`). -/
def analyzeColorDominance (pixels : List Pixel) (c : ColorTarget) : ℚ :=
  ((pixels.countP (colorMatch c)) : ℚ) / ((pixels.length : ℕ) : ℚ)

/-- The decision at lines 214-224 of `analyzeScreen`, as a function of the
two dominance fractions and the threshold. -/
def tickDetect (leftBlue rightPurple threshold : ℚ) : Option Result :=
  if rightPurple < leftBlue ∧ threshold < leftBlue then some .alpha
  else if leftBlue < rightPurple ∧ threshold < rightPurple then some .omega
  else none

/-- Function `analyzeScreen` (lines 186-225): a sampling tick.  The raster read of
the two halves of the capture region is abstracted into the `left` and
`right` pixel lists; without a capture area the tick returns immediately.
A detection records `lastDetected` and then dispatches through the same
debounced path as a manual press. -/
def analyzeScreen (now : ℤ) (left right : List Pixel) (s : AppState) : AppState :=
  match s.captureArea with
  | none => s
  | some _ =>
      let leftBlue := analyzeColorDominance left .blue
      let rightPurple := analyzeColorDominance right .purple
      let threshold := ((s.sensitivity : ℕ) : ℚ) / 100
      match tickDetect leftBlue rightPurple threshold with
      | some res => dispatchOutcome now res { s with lastDetected := some (res, now) }
      | none => s

/-- The operations that mutate history/ensemble state, for reachability. -/
inductive Event where
  | outcome (now : ℤ) (r : Result)
  | clear
deriving Repr

/-- Apply one event to the state. -/
def applyEvent (s : AppState) : Event → AppState
  | .outcome now r => dispatchOutcome now r s
  | .clear => clearHistory s

/-- Run a sequence of events from the initial state. -/
def run (events : List Event) : AppState :=
  events.foldl applyEvent initState

/-- Run a sequence of timed outcomes from a given state. -/
def runOutcomes (s : AppState) : List (ℤ × Result) → AppState
  | [] => s
  | (t, r) :: rest => runOutcomes (dispatchOutcome t r s) rest

/-- History well-formedness maintained by every reachable state: each
entry's id is its creation time, and no entry is newer than the last. -/
def HistOk (h : List HistoryEntry) : Prop :=
  (∀ e ∈ h, e.id = e.timestamp) ∧
  (∀ e ∈ h, ∀ la, h.getLast? = some la → e.timestamp ≤ la.timestamp)

/-- Counter bookkeeping of one method after `k` accepted outcomes. -/
def MethodCountersOk (m : PredictionMethod) (k : ℕ) : Prop :=
  m.predictions + 1 = k ∧
  m.correct ≤ m.predictions ∧
  (0 < m.predictions → m.accuracy = ((m.correct : ℕ) : ℚ) / ((m.predictions : ℕ) : ℚ) * 100) ∧
  (m.predictions = 0 → m.accuracy = 0)

/-- State shape after `k ≥ 1` accepted outcomes, the newest at time `tl`. -/
def RunInv (s : AppState) (k : ℕ) (tl : ℤ) : Prop :=
  s.history.length = k ∧
  (∃ la, s.history.getLast? = some la ∧ la.timestamp = tl) ∧
  s.currentPrediction.isSome = true ∧
  ∀ m ∈ s.methods, MethodCountersOk m k

/-! ### Basic lemmas about the operations -/

lemma makePrediction_history (s : AppState) : (makePrediction s).history = s.history := by
  unfold makePrediction
  cases selectBest s.methods <;> rfl

lemma makePrediction_methods (s : AppState) : (makePrediction s).methods = s.methods := by
  unfold makePrediction
  cases selectBest s.methods <;> rfl

lemma makePrediction_isSome (s : AppState) (h : s.currentPrediction.isSome) :
    (makePrediction s).currentPrediction.isSome := by
  unfold makePrediction
  cases selectBest s.methods
  · exact h
  · rfl

lemma appendResult_history (now : ℤ) (r : Result) (s : AppState) :
    (appendResult now r s).history = s.history ++ [{ id := now, result := r, timestamp := now }] := by
  unfold appendResult
  cases s.currentPrediction <;> rfl

lemma appendResult_currentPrediction (now : ℤ) (r : Result) (s : AppState) :
    (appendResult now r s).currentPrediction = s.currentPrediction := by
  unfold appendResult
  cases s.currentPrediction <;> rfl

lemma appendResult_methods_none (now : ℤ) (r : Result) (s : AppState)
    (h : s.currentPrediction = none) : (appendResult now r s).methods = s.methods := by
  unfold appendResult
  rw [h]

lemma appendResult_methods_some (now : ℤ) (r : Result) (s : AppState) (p : Result)
    (h : s.currentPrediction = some p) :
    (appendResult now r s).methods = s.methods.map (scoreMethod s.history r) := by
  unfold appendResult
  rw [h]

lemma dispatchOutcome_reject (now : ℤ) (r : Result) (s : AppState) (la : HistoryEntry)
    (hla : s.history.getLast? = some la) (hlt : now < la.timestamp + 5000) :
    dispatchOutcome now r s = s := by
  unfold dispatchOutcome
  rw [hla]
  exact if_pos (by omega)

lemma dispatchOutcome_accept_empty (now : ℤ) (r : Result) (s : AppState)
    (h : s.history = []) :
    dispatchOutcome now r s = makePrediction (appendResult now r s) := by
  unfold dispatchOutcome
  rw [h]
  rfl

lemma dispatchOutcome_accept_last (now : ℤ) (r : Result) (s : AppState) (la : HistoryEntry)
    (hla : s.history.getLast? = some la) (hge : la.timestamp + 5000 ≤ now) :
    dispatchOutcome now r s = makePrediction (appendResult now r s) := by
  unfold dispatchOutcome
  rw [hla]
  exact if_neg (by omega)

lemma dispatchOutcome_empty_history (now : ℤ) (r : Result) (s : AppState)
    (h : s.history = []) :
    (dispatchOutcome now r s).history = [{ id := now, result := r, timestamp := now }] := by
  rw [dispatchOutcome_accept_empty now r s h, makePrediction_history, appendResult_history, h]
  rfl

/-! ### The left-to-right accuracy reduction -/

lemma foldl_pickBetter_of_no_gain (l : List PredictionMethod) (b : PredictionMethod)
    (h : ∀ m ∈ l, ¬ b.accuracy < m.accuracy) : l.foldl pickBetter b = b := by
  induction l generalizing b with
  | nil => rfl
  | cons x xs ih =>
    rw [List.foldl_cons]
    have hx : pickBetter b x = b := by
      unfold pickBetter
      rw [if_neg (h x (by simp))]
    rw [hx]
    exact ih b (fun m hm => h m (by simp [hm]))

lemma foldl_pickBetter_spec (l : List PredictionMethod) (b : PredictionMethod) :
    (∀ m ∈ l, m.accuracy ≤ (l.foldl pickBetter b).accuracy) ∧
    b.accuracy ≤ (l.foldl pickBetter b).accuracy ∧
    (l.foldl pickBetter b = b ∨
      ∃ l1 l2, l = l1 ++ (l.foldl pickBetter b) :: l2 ∧
        b.accuracy < (l.foldl pickBetter b).accuracy ∧
        ∀ m ∈ l1, m.accuracy < (l.foldl pickBetter b).accuracy) := by
  induction l generalizing b with
  | nil => exact ⟨by simp, le_refl _, Or.inl rfl⟩
  | cons x xs ih =>
    rw [List.foldl_cons]
    by_cases hcmp : b.accuracy < x.accuracy
    · have hbx : pickBetter b x = x := by
        unfold pickBetter
        rw [if_pos hcmp]
      rw [hbx]
      obtain ⟨hall, hle, hrest⟩ := ih x
      refine ⟨?_, le_trans (le_of_lt hcmp) hle, ?_⟩
      · intro m hm
        rcases List.mem_cons.mp hm with rfl | hm
        · exact hle
        · exact hall m hm
      · rcases hrest with heq | ⟨l1, l2, hsplit, hlt, hsm⟩
        · right
          refine ⟨[], xs, by simp [heq], by rw [heq]; exact hcmp, by simp⟩
        · right
          refine ⟨x :: l1, l2, by rw [List.cons_append, ← hsplit], lt_trans hcmp hlt, ?_⟩
          intro m hm
          rcases List.mem_cons.mp hm with rfl | hm
          · exact hlt
          · exact hsm m hm
    · have hbx : pickBetter b x = b := by
        unfold pickBetter
        rw [if_neg hcmp]
      rw [hbx]
      obtain ⟨hall, hle, hrest⟩ := ih b
      refine ⟨?_, hle, ?_⟩
      · intro m hm
        rcases List.mem_cons.mp hm with rfl | hm
        · exact le_trans (le_of_not_lt hcmp) hle
        · exact hall m hm
      · rcases hrest with heq | ⟨l1, l2, hsplit, hlt, hsm⟩
        · exact Or.inl heq
        · right
          refine ⟨x :: l1, l2, by rw [List.cons_append, ← hsplit], hlt, ?_⟩
          intro m hm
          rcases List.mem_cons.mp hm with rfl | hm
          · exact lt_of_le_of_lt (le_of_not_lt hcmp) hlt
          · exact hsm m hm

/-! ### Claims -/

/-- C10: `clearHistory` touches only the history, the current prediction,
the best-method name and the per-method counters; the monitoring flag,
capture region, stream handle, sensitivity, capture flag, settings flag
and last-detection cache are all left exactly as they were. -/
theorem claim_C10 (s : AppState) :
    (clearHistory s).isMonitoring = s.isMonitoring ∧
    (clearHistory s).captureArea = s.captureArea ∧
    (clearHistory s).stream = s.stream ∧
    (clearHistory s).sensitivity = s.sensitivity ∧
    (clearHistory s).isCapturing = s.isCapturing ∧
    (clearHistory s).showSettings = s.showSettings ∧
    (clearHistory s).lastDetected = s.lastDetected ∧
    (clearHistory s).history = [] ∧
    (clearHistory s).currentPrediction = none ∧
    (clearHistory s).bestMethod = "" ∧
    (clearHistory s).methods = s.methods.map resetCounters :=
  ⟨rfl, rfl, rfl, rfl, rfl, rfl, rfl, rfl, rfl, rfl, rfl⟩

/-- C9: on an empty history the debounce guard cannot fire, so a dispatch
at any time (even far in the past) appends its outcome; in particular the
first outcome after `clearHistory` is always recorded. -/
theorem claim_C9 (s : AppState) (now : ℤ) (r : Result) (h : s.history = []) :
    (dispatchOutcome now r s).history = [{ id := now, result := r, timestamp := now }] ∧
    ∀ s0 : AppState,
      (dispatchOutcome now r (clearHistory s0)).history
        = [{ id := now, result := r, timestamp := now }] :=
  ⟨dispatchOutcome_empty_history now r s h,
   fun s0 => dispatchOutcome_empty_history now r (clearHistory s0) rfl⟩

/-- Witness for C9 at a concrete input: a dispatch at time −7 on the fresh
state is appended even though its time precedes every "recent" window. -/
theorem claim_C9_witness :
    initState.history = ([] : List HistoryEntry) ∧
    (dispatchOutcome (-7) .omega initState).history
      = [{ id := -7, result := .omega, timestamp := -7 }] :=
  ⟨rfl, (claim_C9 initState (-7) .omega rfl).1⟩

/-- C5: the frequency-majority predictor returns alpha exactly when the
history holds strictly more alpha than omega entries, omega in every
other case; in particular it returns omega on every tie, the empty
history included. -/
theorem claim_C5 (hist : List HistoryEntry) :
    (freqPredict hist = .alpha ↔ omegaCount hist < alphaCount hist) ∧
    (freqPredict hist = .omega ↔ ¬ omegaCount hist < alphaCount hist) ∧
    (alphaCount hist = omegaCount hist → freqPredict hist = .omega) ∧
    freqPredict [] = .omega := by
  refine ⟨?_, ?_, ?_, by decide⟩
  · by_cases h : omegaCount hist < alphaCount hist <;> simp [freqPredict, h]
  · by_cases h : omegaCount hist < alphaCount hist <;> simp [freqPredict, h]
  · intro he
    have h : ¬ omegaCount hist < alphaCount hist := by omega
    simp [freqPredict, h]

/-- Witness for C5: a one-alpha one-omega history is a tie and the
predictor picks omega there. -/
theorem claim_C5_witness :
    alphaCount [⟨0, .alpha, 0⟩, ⟨1, .omega, 1⟩] = omegaCount [⟨0, .alpha, 0⟩, ⟨1, .omega, 1⟩] ∧
    freqPredict [⟨0, .alpha, 0⟩, ⟨1, .omega, 1⟩] = .omega :=
  ⟨by decide, (claim_C5 [⟨0, .alpha, 0⟩, ⟨1, .omega, 1⟩]).2.2.1 (by decide)⟩

/-- C6: the transition-model predictor returns alpha on a history shorter
than 2; otherwise, with `s` the last entry's result, it returns the
successor of `s` whose transition count out of `s` is strictly larger,
and `s` itself when the switch count does not exceed the stay count
(the tie included). -/
theorem claim_C6 (hist : List HistoryEntry) :
    (hist.length < 2 → transPredict hist = .alpha) ∧
    (∀ e, hist.getLast? = some e → 2 ≤ hist.length →
      (countTrans hist e.result e.result < countTrans hist e.result e.result.other →
        transPredict hist = e.result.other) ∧
      (countTrans hist e.result e.result.other ≤ countTrans hist e.result e.result →
        transPredict hist = e.result)) := by
  constructor
  · intro h
    unfold transPredict
    rw [if_pos h]
  · intro e he h2
    unfold transPredict
    rw [if_neg (by omega), he]
    cases hres : e.result with
    | alpha =>
      simp only [hres, Result.other]
      constructor
      · intro hlt
        simp [hlt]
      · intro hle
        simp [Nat.not_lt.mpr hle]
    | omega =>
      simp only [hres, Result.other]
      constructor
      · intro hlt
        simp [hlt]
      · intro hle
        simp [Nat.not_lt.mpr hle]

/-- Witness for C6: on the history alpha, omega the transition counts out
of the last symbol omega are tied (both zero), so the prediction is the
last symbol omega itself. -/
theorem claim_C6_witness :
    ([⟨0, .alpha, 0⟩, ⟨1, .omega, 1⟩] : List HistoryEntry).getLast? = some ⟨1, .omega, 1⟩ ∧
    2 ≤ ([⟨0, .alpha, 0⟩, ⟨1, .omega, 1⟩] : List HistoryEntry).length ∧
    countTrans [⟨0, .alpha, 0⟩, ⟨1, .omega, 1⟩] .omega (Result.other .omega)
      ≤ countTrans [⟨0, .alpha, 0⟩, ⟨1, .omega, 1⟩] .omega .omega ∧
    transPredict [⟨0, .alpha, 0⟩, ⟨1, .omega, 1⟩] = .omega :=
  ⟨rfl, by decide, by decide,
    ((claim_C6 [⟨0, .alpha, 0⟩, ⟨1, .omega, 1⟩]).2 ⟨1, .omega, 1⟩ rfl (by decide)).2 (by decide)⟩

/-- C3: when the newest history entry has timestamp `t`, a dispatch at any
time before `t + 5000` is a complete no-op — the whole state is unchanged
on the manual path, and on the automatic path (a sampling tick) history
and ensemble are unchanged no matter what the tick classified. -/
theorem claim_C3 (s : AppState) (now : ℤ) (r : Result) (la : HistoryEntry)
    (hla : s.history.getLast? = some la) (hlt : now < la.timestamp + 5000) :
    dispatchOutcome now r s = s ∧
    ∀ left right : List Pixel,
      (analyzeScreen now left right s).history = s.history ∧
      (analyzeScreen now left right s).methods = s.methods := by
  have hrej : ∀ (r' : Result) (s' : AppState), s'.history = s.history →
      dispatchOutcome now r' s' = s' := by
    intro r' s' hs
    exact dispatchOutcome_reject now r' s' la (by rw [hs, hla]) hlt
  refine ⟨hrej r s rfl, ?_⟩
  intro left right
  unfold analyzeScreen
  cases hc : s.captureArea with
  | none => exact ⟨rfl, rfl⟩
  | some area =>
    cases hd : tickDetect (analyzeColorDominance left .blue)
        (analyzeColorDominance right .purple) (((s.sensitivity : ℕ) : ℚ) / 100) with
    | none => simp [hd]
    | some res =>
      simp only [hd]
      rw [hrej res { history := s.history, currentPrediction := s.currentPrediction, bestMethod := s.bestMethod, methods := s.methods, isCapturing := s.isCapturing, isMonitoring := s.isMonitoring, showSettings := s.showSettings, captureArea := some area, sensitivity := s.sensitivity, lastDetected := some (res, now), stream := s.stream } rfl]
      exact ⟨rfl, rfl⟩

/-- Witness for C3: after recording an outcome at time 0, a manual
dispatch at time 4999 changes nothing at all. -/
theorem claim_C3_witness :
    (dispatchOutcome 0 .alpha initState).history.getLast? = some ⟨0, .alpha, 0⟩ ∧
    ((4999 : ℤ) < 0 + 5000) ∧
    dispatchOutcome 4999 .omega (dispatchOutcome 0 .alpha initState)
      = dispatchOutcome 0 .alpha initState :=
  ⟨rfl, by decide,
    (claim_C3 (dispatchOutcome 0 .alpha initState) 4999 .omega ⟨0, .alpha, 0⟩ rfl (by decide)).1⟩

/-- C7: the best-method reduction returns a member of the ensemble whose
accuracy is maximal, and the list splits so that everything declared
before the returned method has strictly smaller accuracy — ties go to the
earliest declared method. -/
theorem claim_C7 (l : List PredictionMethod) (b : PredictionMethod)
    (h : selectBest l = some b) :
    b ∈ l ∧ (∀ m ∈ l, m.accuracy ≤ b.accuracy) ∧
    ∃ l1 l2, l = l1 ++ b :: l2 ∧ ∀ m ∈ l1, m.accuracy < b.accuracy := by
  match l with
  | [] => simp [selectBest] at h
  | m :: ms =>
    have hb : ms.foldl pickBetter m = b := by
      simpa [selectBest] using h
    obtain ⟨hall, hle, hrest⟩ := foldl_pickBetter_spec ms m
    rw [hb] at hall hle hrest
    have hmax : ∀ m' ∈ m :: ms, m'.accuracy ≤ b.accuracy := by
      intro m' hm'
      rcases List.mem_cons.mp hm' with rfl | hm'
      · exact hle
      · exact hall m' hm'
    rcases hrest with heq | ⟨l1, l2, hsplit, hlt, hsm⟩
    · refine ⟨?_, hmax, [], ms, ?_, by simp⟩
      · rw [heq]
        exact List.mem_cons_self m ms
      · rw [heq]
        rfl
    · refine ⟨?_, hmax, m :: l1, l2, by rw [List.cons_append, ← hsplit], ?_⟩
      · exact List.mem_cons_of_mem m (hsplit ▸ (by simp : b ∈ l1 ++ b :: l2))
      · intro m' hm'
        rcases List.mem_cons.mp hm' with rfl | hm'
        · exact hlt
        · exact hsm m' hm'

/-- Witness for C7: in the fresh ensemble all four accuracies tie at 0 and
the reduction returns the first-declared method. -/
theorem claim_C7_witness :
    selectBest initialMethods = some method1 ∧
    (method1 ∈ initialMethods ∧
      (∀ m ∈ initialMethods, m.accuracy ≤ method1.accuracy) ∧
      ∃ l1 l2, initialMethods = l1 ++ method1 :: l2 ∧
        ∀ m ∈ l1, m.accuracy < method1.accuracy) :=
  ⟨rfl, claim_C7 initialMethods method1 rfl⟩

/-- C1 counterexample: the claim as stated is false of the code.  On the
reachable state obtained by recording one outcome (where the cached name
really was "Частотный анализ"), clearing empties the history, but the
subsequent best-method read returns the cached `bestMethod` value `""` —
not the first-declared method's name — because `clearHistory` resets the
cache (line 300) and the `history.length > 0` guard of the effect at
lines 112-116 prevents any recomputation while the history is empty. -/
theorem claim_C1_counterexample :
    getBestMethodName (dispatchOutcome 0 .alpha initState) = method1.name ∧
    (clearHistory (dispatchOutcome 0 .alpha initState)).history = [] ∧
    getBestMethodName (clearHistory (dispatchOutcome 0 .alpha initState)) = "" ∧
    getBestMethodName (clearHistory (dispatchOutcome 0 .alpha initState)) ≠ method1.name :=
  ⟨rfl, rfl, rfl, by decide⟩

/-- C1 (amended): clearing resets everything the ensemble derives from
history — the history is emptied and all counters of every method drop
to zero — but a subsequent best-method read returns the reset cache
`""`, not the first-declared method's name; the pure selector recomputed
over the cleared ensemble would return the first-declared method at
accuracy 0. -/
theorem claim_C1 (s : AppState) :
    (clearHistory s).history = [] ∧
    (∀ m ∈ (clearHistory s).methods, m.predictions = 0 ∧ m.correct = 0 ∧ m.accuracy = 0) ∧
    getBestMethodName (clearHistory s) = "" ∧
    (∀ m0 ms, s.methods = m0 :: ms →
      ∃ b, selectBest (clearHistory s).methods = some b ∧ b.name = m0.name ∧ b.accuracy = 0) := by
  refine ⟨rfl, ?_, rfl, ?_⟩
  · intro m hm
    have : (clearHistory s).methods = s.methods.map resetCounters := rfl
    rw [this] at hm
    obtain ⟨a, _, rfl⟩ := List.mem_map.mp hm
    exact ⟨rfl, rfl, rfl⟩
  · intro m0 ms hms
    have hm : (clearHistory s).methods = resetCounters m0 :: ms.map resetCounters := by
      show s.methods.map resetCounters = _
      rw [hms]
      rfl
    have hfold : (ms.map resetCounters).foldl pickBetter (resetCounters m0) = resetCounters m0 := by
      apply foldl_pickBetter_of_no_gain
      intro m hmm
      obtain ⟨a, _, rfl⟩ := List.mem_map.mp hmm
      show ¬ (0 : ℚ) < 0
      exact lt_irrefl 0
    refine ⟨resetCounters m0, ?_, rfl, rfl⟩
    rw [hm]
    show some ((ms.map resetCounters).foldl pickBetter (resetCounters m0)) = some (resetCounters m0)
    rw [hfold]

/-- Witness for C1 (amended): clearing the fresh state; the pure selector
over the cleared ensemble returns the first-declared method at
accuracy 0 (while the cached read, per the theorem, yields `""`). -/
theorem claim_C1_witness :
    initState.methods = method1 :: [method2, method3, method4] ∧
    ∃ b, selectBest (clearHistory initState).methods = some b ∧
      b.name = method1.name ∧ b.accuracy = 0 :=
  ⟨rfl, (claim_C1 initState).2.2.2 method1 [method2, method3, method4] rfl⟩

/-- C4: the tick decision is exactly the guarded two-branch rule of
`analyzeScreen` — alpha when the left blue fraction beats both the right
purple fraction and the threshold, omega when the purple fraction does,
nothing otherwise (equal fractions detect nothing and a no-detection
tick leaves the state untouched); and a region whose left half is all
blue pixels and whose right half holds no purple pixel is classified
alpha at sensitivity 30. -/
theorem claim_C4 :
    (∀ lB rP thr : ℚ, tickDetect lB rP thr = some .alpha ↔ rP < lB ∧ thr < lB) ∧
    (∀ lB rP thr : ℚ, tickDetect lB rP thr = some .omega ↔
      ¬(rP < lB ∧ thr < lB) ∧ (lB < rP ∧ thr < rP)) ∧
    (∀ lB thr : ℚ, tickDetect lB lB thr = none) ∧
    (∀ (now : ℤ) (left right : List Pixel) (s : AppState),
      tickDetect (analyzeColorDominance left .blue) (analyzeColorDominance right .purple)
        (((s.sensitivity : ℕ) : ℚ) / 100) = none →
      analyzeScreen now left right s = s) ∧
    (∀ left right : List Pixel, left ≠ [] →
      (∀ p ∈ left, colorMatch .blue p = true) →
      (∀ p ∈ right, colorMatch .purple p = false) →
      tickDetect (analyzeColorDominance left .blue) (analyzeColorDominance right .purple)
        ((30 : ℚ) / 100) = some .alpha) := by
  refine ⟨?_, ?_, ?_, ?_, ?_⟩
  · intro lB rP thr
    unfold tickDetect
    split_ifs with h1 h2 <;> simp_all
  · intro lB rP thr
    unfold tickDetect
    split_ifs with h1 h2 <;> simp_all
  · intro lB thr
    unfold tickDetect
    simp [lt_irrefl]
  · intro now left right s h
    unfold analyzeScreen
    cases hc : s.captureArea with
    | none => rfl
    | some area =>
      simp [h]
  · intro left right hne hall hnone
    have hlen : ((left.length : ℕ) : ℚ) ≠ 0 := by
      exact_mod_cast fun h0 => hne (List.length_eq_zero.mp (by exact_mod_cast h0))
    have hl : analyzeColorDominance left .blue = 1 := by
      unfold analyzeColorDominance
      rw [List.countP_eq_length.mpr hall]
      exact div_self hlen
    have hr : analyzeColorDominance right .purple = 0 := by
      unfold analyzeColorDominance
      rw [List.countP_eq_zero.mpr (fun a ha => by rw [hnone a ha]; exact Bool.false_ne_true)]
      exact zero_div _
    rw [hl, hr]
    unfold tickDetect
    rw [if_pos ⟨by norm_num, by norm_num⟩]

/-- Witness for C4 at concrete pixel data: a single saturated cyan-blue
pixel on the left, a grey pixel on the right, sensitivity 30. -/
theorem claim_C4_witness :
    (([⟨0, 255, 255⟩] : List Pixel) ≠ []) ∧
    (∀ p ∈ ([⟨0, 255, 255⟩] : List Pixel), colorMatch .blue p = true) ∧
    (∀ p ∈ ([⟨200, 200, 200⟩] : List Pixel), colorMatch .purple p = false) ∧
    tickDetect (analyzeColorDominance [⟨0, 255, 255⟩] .blue)
      (analyzeColorDominance [⟨200, 200, 200⟩] .purple) ((30 : ℚ) / 100) = some .alpha :=
  ⟨by decide, by decide, by decide,
    claim_C4.2.2.2.2 [⟨0, 255, 255⟩] [⟨200, 200, 200⟩] (by decide) (by decide) (by decide)⟩

/-! ### History well-formedness along runs -/

lemma histOk_nil : HistOk [] := by
  constructor <;> simp [HistOk]

lemma dispatchOutcome_history_accept (now : ℤ) (r : Result) (s : AppState)
    (hacc : ∀ la, s.history.getLast? = some la → la.timestamp + 5000 ≤ now) :
    (dispatchOutcome now r s).history
      = s.history ++ [{ id := now, result := r, timestamp := now }] := by
  cases hl : s.history.getLast? with
  | none =>
    rw [dispatchOutcome_accept_empty now r s (List.getLast?_eq_none_iff.mp hl),
      makePrediction_history, appendResult_history]
  | some la =>
    rw [dispatchOutcome_accept_last now r s la hl (hacc la hl),
      makePrediction_history, appendResult_history]

lemma histOk_append (h : List HistoryEntry) (now : ℤ) (r : Result)
    (hok : HistOk h) (hafter : ∀ la, h.getLast? = some la → la.timestamp < now) :
    HistOk (h ++ [{ id := now, result := r, timestamp := now }]) := by
  obtain ⟨hid, hle⟩ := hok
  constructor
  · intro e he
    rcases List.mem_append.mp he with he | he
    · exact hid e he
    · simp only [List.mem_singleton] at he
      subst he
      rfl
  · intro e he la hla
    rw [List.getLast?_concat] at hla
    injection hla with hla
    subst hla
    rcases List.mem_append.mp he with he | he
    · cases hh : h.getLast? with
      | none =>
        rw [List.getLast?_eq_none_iff.mp hh] at he
        exact absurd he (List.not_mem_nil e)
      | some la0 =>
        exact le_of_lt (lt_of_le_of_lt (hle e he la0 hh) (hafter la0 hh))
    · simp only [List.mem_singleton] at he
      subst he
      exact le_refl _

lemma foldl_histOk (events : List Event) :
    ∀ s : AppState, HistOk s.history → HistOk (events.foldl applyEvent s).history := by
  induction events with
  | nil => intro s h; exact h
  | cons e rest ih =>
    intro s h
    rw [List.foldl_cons]
    apply ih
    cases e with
    | clear => exact histOk_nil
    | outcome now r =>
      show HistOk (dispatchOutcome now r s).history
      by_cases hacc : ∀ la, s.history.getLast? = some la → la.timestamp + 5000 ≤ now
      · rw [dispatchOutcome_history_accept now r s hacc]
        apply histOk_append s.history now r h
        intro la hla
        have := hacc la hla
        omega
      · push_neg at hacc
        obtain ⟨la, hla, hlt⟩ := hacc
        rw [dispatchOutcome_reject now r s la hla (by omega)]
        exact h

lemma run_histOk (events : List Event) : HistOk (run events).history :=
  foldl_histOk events initState histOk_nil

/-- C8: from any reachable state, an accepted append puts the new entry at
the end of the history (nothing reordered or deleted), its id is strictly
larger than every id already present, and the length grows by one. -/
theorem claim_C8 (events : List Event) (now : ℤ) (r : Result)
    (hacc : ∀ la, (run events).history.getLast? = some la → la.timestamp + 5000 ≤ now) :
    (dispatchOutcome now r (run events)).history
      = (run events).history ++ [{ id := now, result := r, timestamp := now }] ∧
    (∀ e ∈ (run events).history, e.id < now) ∧
    (dispatchOutcome now r (run events)).history.length
      = (run events).history.length + 1 := by
  have happ := dispatchOutcome_history_accept now r (run events) hacc
  obtain ⟨hid, hle⟩ := run_histOk events
  refine ⟨happ, ?_, by rw [happ]; simp⟩
  intro e he
  cases hl : (run events).history.getLast? with
  | none =>
    rw [List.getLast?_eq_none_iff.mp hl] at he
    exact absurd he (List.not_mem_nil e)
  | some la =>
    have h1 := hle e he la hl
    have h2 := hacc la hl
    have h3 := hid e he
    omega

/-- Witness for C8: on the empty run the acceptance hypothesis is vacuous
and a dispatch at time 0 appends the single entry with id 0. -/
theorem claim_C8_witness :
    (dispatchOutcome 0 .alpha (run [])).history
      = (run []).history ++ [{ id := 0, result := .alpha, timestamp := 0 }] ∧
    (∀ e ∈ (run []).history, e.id < 0) ∧
    (dispatchOutcome 0 .alpha (run [])).history.length = (run []).history.length + 1 :=
  claim_C8 [] 0 .alpha (fun _ h => Option.noConfusion h)

/-! ### Ensemble counters along accepted runs -/

lemma scoreMethod_counters (hist : List HistoryEntry) (r : Result) (m : PredictionMethod) :
    (scoreMethod hist r m).predictions = m.predictions + 1 ∧
    (scoreMethod hist r m).correct ≤ m.correct + 1 ∧
    m.correct ≤ (scoreMethod hist r m).correct ∧
    (scoreMethod hist r m).accuracy
      = (((scoreMethod hist r m).correct : ℕ) : ℚ)
        / (((scoreMethod hist r m).predictions : ℕ) : ℚ) * 100 := by
  unfold scoreMethod
  by_cases h : m.predict hist = r <;> simp [h]

lemma dispatchOutcome_runInv (s : AppState) (k : ℕ) (tl now : ℤ) (r : Result)
    (hinv : RunInv s k tl) (hgap : tl + 5000 ≤ now) :
    RunInv (dispatchOutcome now r s) (k + 1) now := by
  obtain ⟨hlen, ⟨la, hla, hts⟩, hcp, hms⟩ := hinv
  rw [dispatchOutcome_accept_last now r s la hla (by omega)]
  obtain ⟨p, hp⟩ := Option.isSome_iff_exists.mp hcp
  refine ⟨?_, ?_, ?_, ?_⟩
  · rw [makePrediction_history, appendResult_history, List.length_append, hlen]
    rfl
  · refine ⟨{ id := now, result := r, timestamp := now }, ?_, rfl⟩
    rw [makePrediction_history, appendResult_history]
    exact List.getLast?_concat _
  · apply makePrediction_isSome
    rw [appendResult_currentPrediction, hp]
    rfl
  · intro m hm
    rw [makePrediction_methods, appendResult_methods_some now r s p hp] at hm
    obtain ⟨a, ha, rfl⟩ := List.mem_map.mp hm
    obtain ⟨hk, hcle, _, _⟩ := hms a ha
    obtain ⟨hp1, hc1, hc2, hacc⟩ := scoreMethod_counters s.history r a
    refine ⟨by omega, by omega, fun _ => hacc, fun h0 => by omega⟩

lemma initialMethods_counters :
    ∀ m ∈ initialMethods, m.predictions = 0 ∧ m.correct = 0 ∧ m.accuracy = 0 := by
  intro m hm
  simp only [initialMethods, List.mem_cons, List.not_mem_nil, or_false] at hm
  rcases hm with rfl | rfl | rfl | rfl <;> exact ⟨rfl, rfl, rfl⟩

lemma first_dispatch_runInv (t0 : ℤ) (r0 : Result) :
    RunInv (dispatchOutcome t0 r0 initState) 1 t0 := by
  rw [dispatchOutcome_accept_empty t0 r0 initState rfl]
  refine ⟨?_, ?_, ?_, ?_⟩
  · rw [makePrediction_history, appendResult_history]
    rfl
  · refine ⟨{ id := t0, result := r0, timestamp := t0 }, ?_, rfl⟩
    rw [makePrediction_history, appendResult_history]
    exact List.getLast?_concat _
  · unfold makePrediction
    have hsel : selectBest (appendResult t0 r0 initState).methods
        = some (List.foldl pickBetter method1 [method2, method3, method4]) := by
      rw [appendResult_methods_none t0 r0 initState rfl]
      rfl
    rw [hsel]
    rfl
  · intro m hm
    rw [makePrediction_methods, appendResult_methods_none t0 r0 initState rfl] at hm
    obtain ⟨h1, h2, h3⟩ := initialMethods_counters m hm
    exact ⟨by omega, by omega, fun h => by omega, fun _ => h3⟩

lemma runOutcomes_runInv (evts : List (ℤ × Result)) :
    ∀ (s : AppState) (k : ℕ) (tl : ℤ), RunInv s k tl →
    List.Chain (fun a b => a + 5000 ≤ b) tl (evts.map Prod.fst) →
    ∃ tl', RunInv (runOutcomes s evts) (k + evts.length) tl' := by
  induction evts with
  | nil =>
    intro s k tl hinv _
    exact ⟨tl, by simpa using hinv⟩
  | cons e rest ih =>
    intro s k tl hinv hchain
    obtain ⟨t, r⟩ := e
    rw [List.map_cons, List.chain_cons] at hchain
    obtain ⟨hgap, hchain⟩ := hchain
    obtain ⟨tl', hfin⟩ := ih (dispatchOutcome t r s) (k + 1) t
      (dispatchOutcome_runInv s k tl t r hinv hgap) hchain
    refine ⟨tl', ?_⟩
    have hlen : k + ((t, r) :: rest).length = k + 1 + rest.length := by
      simp [List.length_cons]
      omega
    rw [hlen]
    exact hfin

lemma appendResult_counters_le (now : ℤ) (r : Result) (s : AppState)
    (h : ∀ m ∈ s.methods, m.correct ≤ m.predictions) :
    ∀ m ∈ (appendResult now r s).methods, m.correct ≤ m.predictions := by
  intro m hm
  cases hcp : s.currentPrediction with
  | none =>
    rw [appendResult_methods_none now r s hcp] at hm
    exact h m hm
  | some p =>
    rw [appendResult_methods_some now r s p hcp] at hm
    obtain ⟨a, ha, rfl⟩ := List.mem_map.mp hm
    obtain ⟨hp1, hc1, hc2, _⟩ := scoreMethod_counters s.history r a
    have := h a ha
    omega

lemma dispatchOutcome_counters_le (now : ℤ) (r : Result) (s : AppState)
    (h : ∀ m ∈ s.methods, m.correct ≤ m.predictions) :
    ∀ m ∈ (dispatchOutcome now r s).methods, m.correct ≤ m.predictions := by
  cases hl : s.history.getLast? with
  | none =>
    rw [dispatchOutcome_accept_empty now r s (List.getLast?_eq_none_iff.mp hl),
      makePrediction_methods]
    exact appendResult_counters_le now r s h
  | some la =>
    by_cases hlt : now < la.timestamp + 5000
    · rw [dispatchOutcome_reject now r s la hl hlt]
      exact h
    · rw [dispatchOutcome_accept_last now r s la hl (by omega), makePrediction_methods]
      exact appendResult_counters_le now r s h

lemma runOutcomes_counters_le (evts : List (ℤ × Result)) :
    ∀ s : AppState, (∀ m ∈ s.methods, m.correct ≤ m.predictions) →
    ∀ m ∈ (runOutcomes s evts).methods, m.correct ≤ m.predictions := by
  induction evts with
  | nil => intro s h; exact h
  | cons e rest ih =>
    intro s h
    obtain ⟨t, r⟩ := e
    exact ih (dispatchOutcome t r s) (dispatchOutcome_counters_le t r s h)

lemma dispatchOutcome_methods_length (now : ℤ) (r : Result) (s : AppState) :
    (dispatchOutcome now r s).methods.length = s.methods.length := by
  cases hl : s.history.getLast? with
  | none =>
    rw [dispatchOutcome_accept_empty now r s (List.getLast?_eq_none_iff.mp hl),
      makePrediction_methods]
    cases hcp : s.currentPrediction with
    | none => rw [appendResult_methods_none now r s hcp]
    | some p => rw [appendResult_methods_some now r s p hcp, List.length_map]
  | some la =>
    by_cases hlt : now < la.timestamp + 5000
    · rw [dispatchOutcome_reject now r s la hl hlt]
    · rw [dispatchOutcome_accept_last now r s la hl (by omega), makePrediction_methods]
      cases hcp : s.currentPrediction with
      | none => rw [appendResult_methods_none now r s hcp]
      | some p => rw [appendResult_methods_some now r s p hcp, List.length_map]

lemma runOutcomes_methods_length (evts : List (ℤ × Result)) :
    ∀ s : AppState, (runOutcomes s evts).methods.length = s.methods.length := by
  induction evts with
  | nil => intro s; rfl
  | cons e rest ih =>
    intro s
    obtain ⟨t, r⟩ := e
    rw [show runOutcomes s ((t, r) :: rest) = runOutcomes (dispatchOutcome t r s) rest from rfl,
      ih, dispatchOutcome_methods_length]

/-- C2: along any run of `n = rest.length + 1 ≥ 1` outcomes from the empty
state whose dispatch times are spaced at least 5000 ms apart (so every
dispatch is accepted), the ensemble still holds its four methods, every
method's predictions counter ends at `n − 1` with its accuracy equal to
`correct / predictions * 100` (0 while the counter is 0), and after
every operation of the run `correct ≤ predictions` holds. -/
theorem claim_C2 (t0 : ℤ) (r0 : Result) (rest : List (ℤ × Result))
    (hchain : List.Chain (fun a b => a + 5000 ≤ b) t0 (rest.map Prod.fst)) :
    (∀ m ∈ (runOutcomes (dispatchOutcome t0 r0 initState) rest).methods,
      m.predictions = rest.length ∧
      m.correct ≤ m.predictions ∧
      (0 < m.predictions →
        m.accuracy = ((m.correct : ℕ) : ℚ) / ((m.predictions : ℕ) : ℚ) * 100) ∧
      (m.predictions = 0 → m.accuracy = 0)) ∧
    (runOutcomes (dispatchOutcome t0 r0 initState) rest).methods.length = 4 ∧
    (∀ done todo : List (ℤ × Result), rest = done ++ todo →
      ∀ m ∈ (runOutcomes (dispatchOutcome t0 r0 initState) done).methods,
        m.correct ≤ m.predictions) := by
  obtain ⟨tl', hinv⟩ := runOutcomes_runInv rest (dispatchOutcome t0 r0 initState) 1 t0
    (first_dispatch_runInv t0 r0) hchain
  obtain ⟨_, _, _, hms⟩ := hinv
  refine ⟨?_, ?_, ?_⟩
  · intro m hm
    obtain ⟨hk, hc, ha, ha0⟩ := hms m hm
    exact ⟨by omega, hc, ha, ha0⟩
  · rw [runOutcomes_methods_length, dispatchOutcome_methods_length]
    rfl
  · intro done todo _
    apply runOutcomes_counters_le
    intro m hm
    obtain ⟨_, hc, _, _⟩ := (first_dispatch_runInv t0 r0).2.2.2 m hm
    exact hc

/-- Witness for C2: two outcomes at times 0 and 5000 (exactly the debounce
gap apart); every method ends with one scored prediction. -/
theorem claim_C2_witness :
    List.Chain (fun a b => a + 5000 ≤ b) 0 ([((5000 : ℤ), Result.omega)].map Prod.fst) ∧
    ∀ m ∈ (runOutcomes (dispatchOutcome 0 .alpha initState) [((5000 : ℤ), Result.omega)]).methods,
      m.predictions = [((5000 : ℤ), Result.omega)].length ∧
      m.correct ≤ m.predictions ∧
      (0 < m.predictions →
        m.accuracy = ((m.correct : ℕ) : ℚ) / ((m.predictions : ℕ) : ℚ) * 100) ∧
      (m.predictions = 0 → m.accuracy = 0) :=
  ⟨List.Chain.cons (by decide) List.Chain.nil,
    (claim_C2 0 .alpha [((5000 : ℤ), Result.omega)]
      (List.Chain.cons (by decide) List.Chain.nil)).1⟩
